import Mathlib

/-!
Shallow embedding of the yuushacms static-site generator (JavaScript) and
verification of its specification claims.

The JavaScript source is modelled over `List Char` / `String`:
JS strings become Lean strings, JS objects become association lists of
`Value`s, regex passes become explicit scanners, and `String.prototype.replace`
with a plain-string pattern becomes first-occurrence replacement.
-/

set_option maxRecDepth 4000

namespace Yuusha

/-! ### Character classes (JS regex `\s`, `\w`, `[a-z0-9]`) -/

/-- JS whitespace (`\s`, `String.prototype.trim`): space, tab, LF, VT, FF, CR,
NBSP, and the Unicode space separators. -/
def jsIsSpaceN (n : Nat) : Bool :=
  n == 32 || n == 9 || n == 10 || n == 11 || n == 12 || n == 13 ||
  n == 160 || n == 0x1680 || (0x2000 ≤ n && n ≤ 0x200a) ||
  n == 0x2028 || n == 0x2029 || n == 0x202f || n == 0x205f ||
  n == 0x3000 || n == 0xfeff

def jsIsSpace (c : Char) : Bool := jsIsSpaceN c.toNat

/-- JS regex word character `\w` = `[A-Za-z0-9_]`. -/
def isWordChar (c : Char) : Bool :=
  (48 ≤ c.toNat && c.toNat ≤ 57) || (65 ≤ c.toNat && c.toNat ≤ 90) ||
  (97 ≤ c.toNat && c.toNat ≤ 122) || c.toNat == 95

/-- Lower-case ASCII letter or digit, the characters `[a-z0-9]`. -/
def isLowerAlnum (c : Char) : Bool :=
  (97 ≤ c.toNat && c.toNat ≤ 122) || (48 ≤ c.toNat && c.toNat ≤ 57)

/-- The hyphen character. -/
def hyph : Char := '\x2d'

/-- Opening brace character. -/
def obr : Char := '\x7b'

/-! ### JS values and objects -/

/-- JS front-matter / context value: string, number, boolean, null, or an
array of objects (the only array shape the generator builds). -/
inductive Value where
  | vStr : String → Value
  | vNum : Int → Value
  | vBool : Bool → Value
  | vNull : Value
  | vArr : List (List (String × Value)) → Value

/-- JS object modelled as an association list (insertion-ordered, unique keys
for objects built by the generator). -/
abbrev Obj := List (String × Value)

/-- JS property read `o[k]`: `none` models `undefined`. -/
def getProp : Obj → String → Option Value
  | [], _ => none
  | p :: t, k => if p.1 = k then some p.2 else getProp t k

/-- JS property write `o[k] = v`: overwrite in place if present, else append. -/
def setProp (o : Obj) (k : String) (v : Value) : Obj :=
  if o.any (fun p => p.1 = k) then
    o.map (fun p => if p.1 = k then (k, v) else p)
  else o ++ [(k, v)]

/-- JS object spread `{...a, ...b}`: properties of `b` assigned over `a`. -/
def spread2 (a b : Obj) : Obj := b.foldl (fun acc p => setProp acc p.1 p.2) a

/-- Last binding of key `k` in `o` (for association lists with duplicate
keys this is the binding a JS object built from them would retain). -/
def lastProp (o : Obj) (k : String) : Option Value :=
  getProp o.reverse k

/-- Left-biased choice on optional values (JS property shadowing). -/
def optOr : Option Value → Option Value → Option Value
  | some v, _ => some v
  | none, b => b

/-- JS truthiness. -/
def truthy : Value → Bool
  | .vStr s => !(s == "")
  | .vNum n => !(n == 0)
  | .vBool b => b
  | .vNull => false
  | .vArr _ => true

/-- Decimal digits of a natural number (fuel-indexed so that it reduces). -/
def natToDecF : Nat → Nat → List Char
  | 0, _ => []
  | fuel + 1, n =>
    if n < 10 then [Char.ofNat (48 + n)]
    else natToDecF fuel (n / 10) ++ [Char.ofNat (48 + n % 10)]

/-- Decimal string of a natural number (JS `${n}` for integral `n`). -/
def natToDec (n : Nat) : String := ⟨natToDecF (n + 1) n⟩

/-- Decimal string of an integer. -/
def intToDec (n : Int) : String :=
  if n < 0 then "-" ++ natToDec n.natAbs else natToDec n.toNat

/-- JS string coercion of a value (`String(v)`); arrays join their elements
with commas and plain objects print as `[object Object]`. -/
def toJsString : Value → String
  | .vStr s => s
  | .vNum n => intToDec n
  | .vBool b => if b then "true" else "false"
  | .vNull => "null"
  | .vArr xs => String.intercalate "," (xs.map (fun _ => "[object Object]"))

/-- JS `v || ''` followed by string coercion, as used by the renderer for
variable substitution (`context[key] || ''`). -/
def orEmpty : Option Value → String
  | none => ""
  | some v => if truthy v then toJsString v else ""

/-- JS `a || b` on an optionally-present value. -/
def jsOrV (a : Option Value) (b : Value) : Value :=
  match a with
  | some v => if truthy v then v else b
  | none => b

/-- JS truthiness of `o[k]` where absence is `undefined`. -/
def truthyProp (o : Obj) (k : String) : Bool :=
  match getProp o k with
  | some v => truthy v
  | none => false

/-! ### Plain-string search and replace. JS `String.prototype.replace` with
a string pattern replaces the first occurrence; the replacement string is
processed by ECMAScript GetSubstitution, which expands dollar patterns
before insertion. -/

/-- The dollar character. -/
def dollar : Char := '$'

/-- ECMAScript GetSubstitution for a string `replace` with a string pattern
(no capture groups): in the replacement, a double dollar becomes a single
dollar, dollar-ampersand becomes the matched text, dollar-backquote becomes
the part of the subject before the match, dollar-quote the part after it;
any other dollar (including digit references, which have no captures to
refer to) stays literal. -/
def getSubstitution (matched before after : List Char) : List Char → List Char
  | [] => []
  | [c] => [c]
  | c :: d :: rest =>
    if c = dollar then
      if d = dollar then dollar :: getSubstitution matched before after rest
      else if d = '&' then matched ++ getSubstitution matched before after rest
      else if d = '\x60' then before ++ getSubstitution matched before after rest
      else if d = '\x27' then after ++ getSubstitution matched before after rest
      else c :: getSubstitution matched before after (d :: rest)
    else c :: getSubstitution matched before after (d :: rest)

/-- Index of the first occurrence of `pat` in `l`. -/
def findIdx : List Char → List Char → Option Nat
  | _, [] => none
  | pat, c :: t =>
    if pat.isPrefixOf (c :: t) then some 0
    else (findIdx pat t).map (· + 1)

/-- Replace the first occurrence of `pat` in `l` (no occurrence: unchanged),
the model of `l.replace(pat, rep)` for string patterns: the replacement is
passed through GetSubstitution with the matched text and its surroundings. -/
def replaceFirstL (l pat rep : List Char) : List Char :=
  match findIdx pat l with
  | none => l
  | some i =>
    l.take i ++ getSubstitution pat (l.take i) (l.drop (i + pat.length)) rep
      ++ l.drop (i + pat.length)

/-- String-level first-occurrence replacement. -/
def replaceFirstS (s pat rep : String) : String :=
  ⟨replaceFirstL s.data pat.data rep.data⟩

/-! ### Template marker scanners

The renderer (`ssg.js`, `renderTemplate`) runs four ordered regex passes:
partial inclusion `{{> name }}`, loops `{{#each name}}...{{/each}}`,
conditionals `{{#if name}}...{{/if}}`, and variables `{{ name }}`.
Each pass collects `matchAll` results (left to right, resuming after each
match, advancing one position on failure) and then replaces each recorded
full match, first occurrence first, in the working template. -/

def openBrace2 : List Char := "\x7b\x7b".data

def closeBrace2 : List Char := "\x7d\x7d".data

def eachOpen : List Char := "\x7b\x7b#each".data

def eachClose : List Char := "\x7b\x7b/each\x7d\x7d".data

def ifOpen : List Char := "\x7b\x7b#if".data

def ifClose : List Char := "\x7b\x7b/if\x7d\x7d".data

def incOpen : List Char := "\x7b\x7b>".data

/-- Match of `/{{\s*([\w]+)\s*}}/` at the head of `l`:
`(full match, captured name, remaining input)`. -/
def matchVarAt (l : List Char) : Option (List Char × String × List Char) :=
  if openBrace2.isPrefixOf l then
    let t := l.drop 2
    let s1 := t.takeWhile jsIsSpace
    let r1 := t.dropWhile jsIsSpace
    let w := r1.takeWhile isWordChar
    let r2 := r1.dropWhile isWordChar
    let s2 := r2.takeWhile jsIsSpace
    let r3 := r2.dropWhile jsIsSpace
    if w ≠ [] ∧ closeBrace2.isPrefixOf r3 then
      some (openBrace2 ++ s1 ++ w ++ s2 ++ closeBrace2, ⟨w⟩, r3.drop 2)
    else none
  else none

/-- Match of `/{{>\s*([\w]+)\s*}}/` at the head of `l`. -/
def matchIncAt (l : List Char) : Option (List Char × String × List Char) :=
  if incOpen.isPrefixOf l then
    let t := l.drop 3
    let s1 := t.takeWhile jsIsSpace
    let r1 := t.dropWhile jsIsSpace
    let w := r1.takeWhile isWordChar
    let r2 := r1.dropWhile isWordChar
    let s2 := r2.takeWhile jsIsSpace
    let r3 := r2.dropWhile jsIsSpace
    if w ≠ [] ∧ closeBrace2.isPrefixOf r3 then
      some (incOpen ++ s1 ++ w ++ s2 ++ closeBrace2, ⟨w⟩, r3.drop 2)
    else none
  else none

/-- Match of `/{{#each\s+([\w]+)}}([\s\S]*?){{\/each}}/` at the head of `l`:
`(full match, collection name, lazy body, remaining input)`. -/
def matchEachAt (l : List Char) :
    Option (List Char × String × List Char × List Char) :=
  if eachOpen.isPrefixOf l then
    let t := l.drop 7
    let s1 := t.takeWhile jsIsSpace
    let r1 := t.dropWhile jsIsSpace
    let w := r1.takeWhile isWordChar
    let r2 := r1.dropWhile isWordChar
    if s1 ≠ [] ∧ w ≠ [] ∧ closeBrace2.isPrefixOf r2 then
      let body0 := r2.drop 2
      match findIdx eachClose body0 with
      | some i =>
        some (eachOpen ++ s1 ++ w ++ closeBrace2 ++ body0.take i ++ eachClose,
          ⟨w⟩, body0.take i, body0.drop (i + 9))
      | none => none
    else none
  else none

/-- Match of `/{{#if\s+([\w]+)}}([\s\S]*?){{\/if}}/` at the head of `l`. -/
def matchIfAt (l : List Char) :
    Option (List Char × String × List Char × List Char) :=
  if ifOpen.isPrefixOf l then
    let t := l.drop 5
    let s1 := t.takeWhile jsIsSpace
    let r1 := t.dropWhile jsIsSpace
    let w := r1.takeWhile isWordChar
    let r2 := r1.dropWhile isWordChar
    if s1 ≠ [] ∧ w ≠ [] ∧ closeBrace2.isPrefixOf r2 then
      let body0 := r2.drop 2
      match findIdx ifClose body0 with
      | some i =>
        some (ifOpen ++ s1 ++ w ++ closeBrace2 ++ body0.take i ++ ifClose,
          ⟨w⟩, body0.take i, body0.drop (i + 7))
      | none => none
    else none
  else none

/-- Fuel-indexed `matchAll` scan for variable markers. -/
def scanVarsF : Nat → List Char → List (List Char × String)
  | 0, _ => []
  | fuel + 1, [] =>
    match matchVarAt [] with
    | some m => (m.1, m.2.1) :: scanVarsF fuel m.2.2
    | none => []
  | fuel + 1, c :: t =>
    match matchVarAt (c :: t) with
    | some m => (m.1, m.2.1) :: scanVarsF fuel m.2.2
    | none => scanVarsF fuel t

def scanVars (l : List Char) : List (List Char × String) :=
  scanVarsF (l.length + 1) l

/-- Fuel-indexed `matchAll` scan for partial-inclusion markers. -/
def scanIncsF : Nat → List Char → List (List Char × String)
  | 0, _ => []
  | fuel + 1, [] =>
    match matchIncAt [] with
    | some m => (m.1, m.2.1) :: scanIncsF fuel m.2.2
    | none => []
  | fuel + 1, c :: t =>
    match matchIncAt (c :: t) with
    | some m => (m.1, m.2.1) :: scanIncsF fuel m.2.2
    | none => scanIncsF fuel t

def scanIncs (l : List Char) : List (List Char × String) :=
  scanIncsF (l.length + 1) l

/-- Fuel-indexed `matchAll` scan for `each` loop blocks:
elements are `(full match, collection name, body)`. -/
def scanEachF : Nat → List Char → List (List Char × String × List Char)
  | 0, _ => []
  | fuel + 1, [] =>
    match matchEachAt [] with
    | some m => (m.1, m.2.1, m.2.2.1) :: scanEachF fuel m.2.2.2
    | none => []
  | fuel + 1, c :: t =>
    match matchEachAt (c :: t) with
    | some m => (m.1, m.2.1, m.2.2.1) :: scanEachF fuel m.2.2.2
    | none => scanEachF fuel t

def scanEach (l : List Char) : List (List Char × String × List Char) :=
  scanEachF (l.length + 1) l

/-- Fuel-indexed `matchAll` scan for `if` conditional blocks. -/
def scanIfF : Nat → List Char → List (List Char × String × List Char)
  | 0, _ => []
  | fuel + 1, [] =>
    match matchIfAt [] with
    | some m => (m.1, m.2.1, m.2.2.1) :: scanIfF fuel m.2.2.2
    | none => []
  | fuel + 1, c :: t =>
    match matchIfAt (c :: t) with
    | some m => (m.1, m.2.1, m.2.2.1) :: scanIfF fuel m.2.2.2
    | none => scanIfF fuel t

def scanIf (l : List Char) : List (List Char × String × List Char) :=
  scanIfF (l.length + 1) l

/-! ### The renderer (`renderTemplate`, `ssg.js` lines 300-347) -/

/-- Partial pass: each recorded `{{> name }}` match is replaced by the
store's text for `name` when that text is non-empty; a missing partial only
warns and leaves the marker in place. -/
def runIncPass (store : String → String) (t : List Char) : List Char :=
  (scanIncs t).foldl (fun tm m =>
    let pc := (store m.2).data
    if pc ≠ [] then replaceFirstL tm m.1 pc else tm) t

/-- Loop pass: each recorded `{{#each c}}body{{/each}}` match is replaced by
the concatenation of `render1 body {...context, ...item}` over the items
when `context[c]` is an array, and by the empty string otherwise. `render1`
is the recursive render call at the remaining fuel. -/
def runEachPass (render1 : List Char → Obj → List Char) (ctx1 : Obj)
    (t : List Char) : List Char :=
  (scanEach t).foldl (fun tm m =>
    match getProp ctx1 m.2.1 with
    | some (.vArr items) =>
      replaceFirstL tm m.1
        (List.flatten (items.map (fun it => render1 m.2.2 (spread2 ctx1 it))))
    | _ => replaceFirstL tm m.1 []) t

/-- Conditional pass: `{{#if c}}body{{/if}}` becomes `body` iff
`context[c]` is truthy, else the empty string. -/
def runIfPass (ctx1 : Obj) (t : List Char) : List Char :=
  (scanIf t).foldl (fun tm m =>
    replaceFirstL tm m.1
      (if truthyProp ctx1 m.2.1 then m.2.2 else [])) t

/-- Variable pass: `{{ k }}` becomes `context[k] || ''`. -/
def runVarPass (ctx1 : Obj) (t : List Char) : List Char :=
  (scanVars t).foldl (fun tm m =>
    replaceFirstL tm m.1 (orEmpty (getProp ctx1 m.2)).data) t

/-- Rendering core over char lists. Mirrors `renderTemplate`:
an empty template returns `''` at once; otherwise the function first mutates
the caller's context (`context.currentYear = new Date().getFullYear()`),
then runs the partial pass, the loop pass (recursing into the body once per
array item with context `{...context, ...item}`; a missing or non-array
collection replaces the block by the empty string), the conditional pass,
and the variable pass (`context[key] || ''`). `year` makes the wall-clock
input explicit and `fuel` bounds the loop-pass recursion depth; the result
pairs the rendered text with the (mutated) context object. -/
def renderT (year : Int) (store : String → String) :
    Nat → List Char → Obj → (List Char × Obj)
  | 0, t, ctx => (t, ctx)
  | fuel + 1, t, ctx =>
    if t = [] then ([], ctx)
    else
      let ctx1 := setProp ctx "currentYear" (.vNum year)
      (runVarPass ctx1 (runIfPass ctx1
        (runEachPass (fun b c => (renderT year store fuel b c).1) ctx1
          (runIncPass store t))), ctx1)

/-- String-level renderer: `renderTemplate(template, context)` with the
template store, the current year, and the recursion fuel made explicit. -/
def renderTemplate (year : Int) (store : String → String) (fuel : Nat)
    (template : String) (context : Obj) : String × Obj :=
  let r := renderT year store fuel template.data context
  (⟨r.1⟩, r.2)

/-! ### Slug utilities (`dataExtractor.js`) -/

/-- Space-or-hyphen class `[\s-]` of the collapsing regex. -/
def sepish (c : Char) : Bool := jsIsSpace c || c == hyph

/-- The character class kept by `replace(/[^a-z0-9\s-]/g, '')`. -/
def keepChar (c : Char) : Bool := isLowerAlnum c || jsIsSpace c || c == hyph

/-- JS `String.prototype.trim`. -/
def jsTrim (l : List Char) : List Char :=
  ((l.dropWhile jsIsSpace).reverse.dropWhile jsIsSpace).reverse

/-- Fuel-indexed model of `replace(/[\s-]+/g, '-')`: every maximal run of
whitespace or hyphens becomes a single hyphen. -/
def collapseSepF : Nat → List Char → List Char
  | 0, l => l
  | fuel + 1, l =>
    match l with
    | [] => []
    | c :: rest =>
      if sepish c then hyph :: collapseSepF fuel (rest.dropWhile sepish)
      else c :: collapseSepF fuel rest

def collapseSep (l : List Char) : List Char := collapseSepF l.length l

/-- One application of regex alternative `^-`: drop a single leading hyphen. -/
def dropLeadSep : List Char → List Char
  | [] => []
  | c :: rest => if c = hyph then rest else c :: rest

/-- Model of `replace(/^-|-$/g, '')`: strip one leading and one trailing
hyphen. -/
def stripSep (l : List Char) : List Char :=
  (dropLeadSep ((dropLeadSep l).reverse)).reverse

/-- Model of `sanitizeSlug` from `dataExtractor.js` (defaults
`maxLength = 50`, `separator = '-'`): empty input falls back to `'post'`;
otherwise lowercase, trim, strip disallowed characters, collapse whitespace
and hyphen runs to single hyphens, truncate to 50, strip boundary hyphens,
and fall back to `'post'` if nothing is left. -/
def slugStages (input : List Char) : List Char :=
  stripSep
    ((collapseSep ((jsTrim (input.map Char.toLower)).filter keepChar)).take 50)

def sanitizeSlugL (input : List Char) : List Char :=
  if input = [] then "post".data
  else if slugStages input = [] then "post".data
  else slugStages input

def sanitizeSlug (input : String) : String := ⟨sanitizeSlugL input.data⟩

/-- Loop body of `ensureUniqueSlug`: try `slug`, `slug-1`, `slug-2`, … until
the candidate is free of `existing`. -/
def ensureUniqueAux (slug : String) (existing : List String) :
    String → Nat → Nat → String
  | current, _, 0 => current
  | current, counter, fuel + 1 =>
    if existing.contains current then
      ensureUniqueAux slug existing (slug ++ "-" ++ natToDec counter)
        (counter + 1) fuel
    else current

/-- Model of `ensureUniqueSlug(slug, existingSlugs)`: the chosen slug and the
updated set of taken slugs. -/
def ensureUniqueSlug (slug : String) (existing : List String) :
    String × List String :=
  let final := ensureUniqueAux slug existing slug 1 (existing.length + 1)
  (final, existing ++ [final])

/-- Slugs produced for a batch of record titles by
`generateMarkdownFromCsv` / `generateMarkdownFromJson`: each title is
sanitized and then made unique against the slugs taken so far. -/
def slugsOfTitles (titles : List String) : List String :=
  (titles.foldl
    (fun acc t =>
      let r := ensureUniqueSlug (sanitizeSlug t) acc.2
      (acc.1 ++ [r.1], r.2))
    (([] : List String), ([] : List String))).1

/-! ### Pagination (`processContent` / `generateIndex`, `ssg.js`) -/

/-- `Math.ceil(numPosts / postsPerPage)`. -/
def totalPagesOf (numPosts postsPerPage : Nat) : Nat :=
  (numPosts + postsPerPage - 1) / postsPerPage

/-- `postSlices`: `posts.slice(i * pp, (i + 1) * pp)` for `i < totalPages`. -/
def postSlices (posts : List α) (pp : Nat) : List (List α) :=
  (List.range (totalPagesOf posts.length pp)).map
    (fun i => ((posts.drop (i * pp)).take pp))

/-- Output file name of index page `n`:
`n === 1 ? 'index.html' : 'index-' + n + '.html'`. -/
def pageFileName (n : Nat) : String :=
  if n = 1 then "index.html" else "index-" ++ natToDec n ++ ".html"

/-- `prevPage` URL passed to the index template by `generateIndex`. -/
def prevPageOf (pageNumber : Nat) : Option String :=
  if 1 < pageNumber then
    some ("/yuushacms/index-" ++ natToDec (pageNumber - 1) ++ ".html")
  else none

/-- `nextPage` URL passed to the index template by `generateIndex`. -/
def nextPageOf (pageNumber totalPages : Nat) : Option String :=
  if pageNumber < totalPages then
    some ("/yuushacms/index-" ++ natToDec (pageNumber + 1) ++ ".html")
  else none

/-! ### Tag sanitization and tag pages (`ssg.js`) -/

/-- Unreserved characters of `encodeURIComponent`:
ASCII letters, digits, and `- _ . ! ~ * ' ( )`. -/
def uriUnreserved (c : Char) : Bool :=
  (65 ≤ c.toNat && c.toNat ≤ 90) || (97 ≤ c.toNat && c.toNat ≤ 122) ||
  (48 ≤ c.toNat && c.toNat ≤ 57) ||
  c.toNat == 45 || c.toNat == 95 || c.toNat == 46 || c.toNat == 33 ||
  c.toNat == 126 || c.toNat == 42 || c.toNat == 39 || c.toNat == 40 ||
  c.toNat == 41

/-- Upper-case hexadecimal digit. -/
def hexDigit (n : Nat) : Char :=
  if n < 10 then Char.ofNat (48 + n) else Char.ofNat (55 + n)

/-- UTF-8 bytes of a character. -/
def utf8Bytes (c : Char) : List Nat :=
  let n := c.toNat
  if n < 0x80 then [n]
  else if n < 0x800 then [0xc0 + n / 64, 0x80 + n % 64]
  else if n < 0x10000 then
    [0xe0 + n / 4096, 0x80 + n / 64 % 64, 0x80 + n % 64]
  else
    [0xf0 + n / 262144, 0x80 + n / 4096 % 64, 0x80 + n / 64 % 64,
      0x80 + n % 64]

/-- Percent-escape of one byte. -/
def pctByte (b : Nat) : List Char :=
  ['%', hexDigit (b / 16), hexDigit (b % 16)]

/-- Model of `encodeURIComponent`. -/
def encodeURIComponent (s : String) : String :=
  ⟨(s.data.map (fun c =>
      if uriUnreserved c then [c] else (utf8Bytes c).map pctByte |>.flatten)
    ).flatten⟩

/-- Fuel-indexed model of `replace(/\s+/g, '-')`: every maximal whitespace
run becomes a single hyphen. -/
def collapseWsF : Nat → List Char → List Char
  | 0, l => l
  | fuel + 1, l =>
    match l with
    | [] => []
    | c :: rest =>
      if jsIsSpace c then hyph :: collapseWsF fuel (rest.dropWhile jsIsSpace)
      else c :: collapseWsF fuel rest

def collapseWs (l : List Char) : List Char := collapseWsF l.length l

/-- Model of `sanitizeTagValue` (`ssg.js` lines 583-587): truncate to 50
characters with an ellipsis marker, lowercase, collapse whitespace to
hyphens, then URL-encode. -/
def sanitizeTagValue (tagValue : String) : String :=
  let truncated :=
    if 50 < tagValue.data.length then ⟨tagValue.data.take 50⟩ ++ "..."
    else tagValue
  encodeURIComponent ⟨collapseWs (truncated.data.map Char.toLower)⟩

/-- Bucket key under which `processContent` (line 507) files a post for a tag
value: the sanitized tag value. -/
def bucketKey (tagValue : String) : String := sanitizeTagValue tagValue

/-- Output file name of tag page `n` in `generateTagPages`:
`n === 1 ? 'index.html' : 'page-' + n + '.html'`. -/
def tagPageFileName (n : Nat) : String :=
  if n = 1 then "index.html" else "page-" ++ natToDec n ++ ".html"

/-- Directory into which `generateTagPages` writes the pages of one bucket:
`path.join(outputDir, 'tags', tagType, sanitizeTagValue(tagValue))` where
`tagValue` is the bucket key. -/
def tagPageDir (tagType key : String) : String :=
  "public/tags/" ++ tagType ++ "/" ++ sanitizeTagValue key

/-- File paths written by `generateTagPages` for one
`(tagType, key)` bucket holding `numPosts` posts with `pp` posts per page. -/
def tagPageFiles (tagType key : String) (numPosts pp : Nat) : List String :=
  (List.range (totalPagesOf numPosts pp)).map
    (fun i => tagPageDir tagType key ++ "/" ++ tagPageFileName (i + 1))

/-! ### Content pipeline (`processContent`, `ssg.js` lines 477-524) -/

/-- Replace every hyphen by a space (the global hyphen-to-space regex
replacement applied to `slug`). -/
def hyphenToSpace (s : String) : String :=
  ⟨s.data.map (fun c => if c = hyph then ' ' else c)⟩

/-- Post record accumulated by `processContent`: `{ title, url }`. -/
abbrev PostRec := Value × String

/-- Skipped-entry record: `{ title, link }` guesses from the file name. -/
abbrev SkipRec := String × String

/-- Post record pushed by `processContent` for a processed file:
`{ title: data.title || slug.replace(hyphens, spaces), url: slug + '.html' }`
with `slug = file.replace('.md', '')`. -/
def postOf (f : String × Obj × String) : PostRec :=
  (jsOrV (getProp f.2.1 "title")
      (.vStr (hyphenToSpace (replaceFirstS f.1 ".md" ""))),
    replaceFirstS f.1 ".md" "" ++ ".html")

/-- Skipped-entry record pushed by `processContent` for a title-less file:
`{ title: file.replace('.md', ''), link: file.replace('.md', '') + '.html' }`. -/
def skipOf (f : String × Obj × String) : SkipRec :=
  (replaceFirstS f.1 ".md" "", replaceFirstS f.1 ".md" "" ++ ".html")

/-- Loop body of `processContent` for one parsed file: a file without a
truthy `title` goes to the skipped list, any other to the post list. -/
def processStep (acc : List PostRec × List SkipRec)
    (f : String × Obj × String) : List PostRec × List SkipRec :=
  if truthyProp f.2.1 "title" then (acc.1 ++ [postOf f], acc.2)
  else (acc.1, acc.2 ++ [skipOf f])

/-- Model of the per-file accumulation of `processContent`: parsed files are
`(relative name, front matter, body HTML)`; a file whose front matter lacks a
truthy `title` is recorded in the skipped list, any other file contributes a
post `{ title, url: slug + '.html' }` with `slug = file.replace('.md', '')`. -/
def processContent (files : List (String × Obj × String)) :
    List PostRec × List SkipRec :=
  files.foldl processStep ([], [])

/-! ### Failure semantics of the two pipeline variants -/

/-- A file whose read/parse step may fail: `(name, Except error (front
matter, body))`. -/
abbrev FileR := String × Except String (Obj × String)

/-- Model of `processContent` in `ssg.js` over fallible reads: the loop body
has no `try`/`catch`, so the first rejected read aborts the batch (the error
propagates out of `processContent` and the remaining files are never
processed). -/
def processContentE : List FileR → Except String (List PostRec × List SkipRec)
  | [] => .ok ([], [])
  | (name, res) :: rest =>
    match res with
    | .error e => .error e
    | .ok (fm, _body) =>
      let slug := replaceFirstS name ".md" ""
      if truthyProp fm "title" then
        match processContentE rest with
        | .error e => .error e
        | .ok (ps, sk) =>
          .ok ((jsOrV (getProp fm "title") (.vStr (hyphenToSpace slug)),
            slug ++ ".html") :: ps, sk)
      else
        match processContentE rest with
        | .error e => .error e
        | .ok (ps, sk) => .ok (ps, (slug, slug ++ ".html") :: sk)

/-- Slug chosen by the `processContent` of the `part_004` variant:
`data.slug || title.replace(/\s+/g, '-').toLowerCase()` with
`title = data.title || file.replace('.md', '')`. -/
def slug004 (name : String) (fm : Obj) : String :=
  let titleS :=
    toJsString (jsOrV (getProp fm "title") (.vStr (replaceFirstS name ".md" "")))
  let derived : String := ⟨(collapseWs titleS.data).map Char.toLower⟩
  match getProp fm "slug" with
  | some v => if truthy v then toJsString v else derived
  | none => derived

/-- Model of the `processContent` of the `part_004` variant: every file is
processed in its own `try`/`catch`, a failed read is logged and skipped, and
every successfully read file becomes a post (that variant has no
missing-title skip). -/
def processContent004 : List FileR → List PostRec
  | [] => []
  | (name, res) :: rest =>
    match res with
    | .error _ => processContent004 rest
    | .ok (fm, _body) =>
      (jsOrV (getProp fm "title") (.vStr (replaceFirstS name ".md" "")),
        slug004 name fm ++ ".html") :: processContent004 rest

/-! ### Concrete templates and side conditions used by the claims -/

/-- Representative loop template
`{{#each posts}}<li>{{ title }}</li>{{/each}}`. -/
def eachTemplate : String :=
  "\x7b\x7b#each posts\x7d\x7d<li>\x7b\x7b title \x7d\x7d</li>\x7b\x7b/each\x7d\x7d"

/-- Body of `eachTemplate`. -/
def eachBody : String := "<li>\x7b\x7b title \x7d\x7d</li>"

/-- Representative variable template `{{ x }}`. -/
def varTemplate : String := "\x7b\x7b x \x7d\x7d"

/-- A string without opening braces cannot trigger any marker pass. -/
def noBrace (s : String) : Prop := obr ∉ s.data

instance : DecidablePred noBrace := fun s =>
  inferInstanceAs (Decidable (obr ∉ s.data))

/-! ## Helper lemmas -/

theorem getProp_append (xs ys : Obj) (k : String) :
    getProp (xs ++ ys) k = optOr (getProp xs k) (getProp ys k) := by
  induction xs with
  | nil => simp [getProp, optOr]
  | cons p t ih =>
    by_cases hp : p.1 = k
    · simp [getProp, hp, optOr]
    · simp [getProp, hp, ih]

theorem getProp_none_of_not_any (o : Obj) (k : String)
    (h : o.any (fun p => p.1 = k) = false) : getProp o k = none := by
  induction o with
  | nil => rfl
  | cons p t ih =>
    simp only [List.any_cons, Bool.or_eq_false_iff] at h
    have hp : ¬p.1 = k := by simpa using h.1
    simp [getProp, hp, ih h.2]

theorem getProp_map_set_same (o : Obj) (k : String) (v : Value)
    (h : o.any (fun p => p.1 = k) = true) :
    getProp (o.map (fun p => if p.1 = k then (k, v) else p)) k = some v := by
  induction o with
  | nil => simp at h
  | cons p t ih =>
    by_cases hp : p.1 = k
    · simp [getProp, hp]
    · simp only [List.any_cons, Bool.or_eq_true] at h
      rcases h with h | h


      · exact absurd (by simpa using h) hp
      · simp [getProp, hp, ih h]

theorem getProp_map_set_ne (o : Obj) (k k' : String) (v : Value)
    (h : k' ≠ k) :
    getProp (o.map (fun p => if p.1 = k then (k, v) else p)) k'
      = getProp o k' := by
  have hkk' : ¬k = k' := fun he => h he.symm
  induction o with
  | nil => rfl
  | cons p t ih =>
    by_cases hp : p.1 = k
    · have hpk' : ¬p.1 = k' := by rw [hp]; exact hkk'
      simp [getProp, hp, hkk', hpk', ih]
    · by_cases hpk' : p.1 = k'
      · simp [getProp, hp, hpk', h]
      · simp [getProp, hp, hpk', ih]

theorem getProp_setProp_same (o : Obj) (k : String) (v : Value) :
    getProp (setProp o k v) k = some v := by
  unfold setProp
  by_cases h : o.any (fun p => p.1 = k)
  · rw [if_pos h]
    exact getProp_map_set_same o k v h
  · rw [if_neg h]
    rw [Bool.not_eq_true] at h
    rw [getProp_append, getProp_none_of_not_any o k h]
    simp [getProp, optOr]

theorem getProp_setProp_ne (o : Obj) (k k' : String) (v : Value)
    (h : k' ≠ k) : getProp (setProp o k v) k' = getProp o k' := by
  unfold setProp
  by_cases hc : o.any (fun p => p.1 = k)
  · rw [if_pos hc]
    exact getProp_map_set_ne o k k' v h
  · rw [if_neg hc, getProp_append]
    have hkk' : ¬k = k' := fun he => h he.symm
    have h1 : getProp [(k, v)] k' = none := by
      simp [getProp, hkk']
    rw [h1]
    cases getProp o k' <;> rfl

theorem optOr_some_or (x : Option Value) (v : Value) (z : Option Value) :
    optOr (optOr x (some v)) z = optOr x (some v) := by
  cases x <;> rfl

theorem optOr_none_right (x z : Option Value) :
    optOr (optOr x none) z = optOr x z := by
  cases x <;> rfl

theorem getProp_spread2 (a b : Obj) (k : String) :
    getProp (spread2 a b) k = optOr (lastProp b k) (getProp a k) := by
  induction b generalizing a with
  | nil => simp [spread2, lastProp, getProp, optOr]
  | cons p rest ih =>
    have hstep : spread2 a (p :: rest) = spread2 (setProp a p.1 p.2) rest := by
      simp [spread2]
    have hlast : lastProp (p :: rest) k
        = optOr (lastProp rest k) (if p.1 = k then some p.2 else none) := by
      unfold lastProp
      rw [List.reverse_cons, getProp_append]
      rfl
    rw [hstep, ih, hlast]
    by_cases hp : p.1 = k
    · subst hp
      rw [if_pos rfl, getProp_setProp_same, optOr_some_or]
    · rw [if_neg hp, getProp_setProp_ne a p.1 k p.2 (fun h => hp h.symm),
        optOr_none_right]

theorem isPrefixOf_mem {pat l : List Char} (h : pat.isPrefixOf l = true)
    {c : Char} (hc : c ∈ pat) : c ∈ l := by
  rw [ List.isPrefixOf_iff_prefix] at h
  exact h.sublist.subset hc

theorem matchVarAt_none {l : List Char} (h : obr ∉ l) :
    matchVarAt l = none := by
  unfold matchVarAt
  rw [if_neg]
  intro hp
  exact h (isPrefixOf_mem hp (by decide))

theorem matchIncAt_none {l : List Char} (h : obr ∉ l) :
    matchIncAt l = none := by
  unfold matchIncAt
  rw [if_neg]
  intro hp
  exact h (isPrefixOf_mem hp (by decide))

theorem matchEachAt_none {l : List Char} (h : obr ∉ l) :
    matchEachAt l = none := by
  unfold matchEachAt
  rw [if_neg]
  intro hp
  exact h (isPrefixOf_mem hp (by decide))

theorem matchIfAt_none {l : List Char} (h : obr ∉ l) :
    matchIfAt l = none := by
  unfold matchIfAt
  rw [if_neg]
  intro hp
  exact h (isPrefixOf_mem hp (by decide))

theorem scanVarsF_nil : ∀ (f : Nat) (l : List Char), obr ∉ l →
    scanVarsF f l = [] := by
  intro f
  induction f with
  | zero => intro l _; rfl
  | succ f ih =>
    intro l h
    cases l with
    | nil => rfl
    | cons c t =>
      have hm := matchVarAt_none h
      simp only [scanVarsF, hm]
      exact ih t (fun hmem => h (List.mem_cons_of_mem c hmem))

theorem scanIncsF_nil : ∀ (f : Nat) (l : List Char), obr ∉ l →
    scanIncsF f l = [] := by
  intro f
  induction f with
  | zero => intro l _; rfl
  | succ f ih =>
    intro l h
    cases l with
    | nil => rfl
    | cons c t =>
      have hm := matchIncAt_none h
      simp only [scanIncsF, hm]
      exact ih t (fun hmem => h (List.mem_cons_of_mem c hmem))

theorem scanEachF_nil : ∀ (f : Nat) (l : List Char), obr ∉ l →
    scanEachF f l = [] := by
  intro f
  induction f with
  | zero => intro l _; rfl
  | succ f ih =>
    intro l h
    cases l with
    | nil => rfl
    | cons c t =>
      have hm := matchEachAt_none h
      simp only [scanEachF, hm]
      exact ih t (fun hmem => h (List.mem_cons_of_mem c hmem))

theorem scanIfF_nil : ∀ (f : Nat) (l : List Char), obr ∉ l →
    scanIfF f l = [] := by
  intro f
  induction f with
  | zero => intro l _; rfl
  | succ f ih =>
    intro l h
    cases l with
    | nil => rfl
    | cons c t =>
      have hm := matchIfAt_none h
      simp only [scanIfF, hm]
      exact ih t (fun hmem => h (List.mem_cons_of_mem c hmem))

theorem scanVars_nil {l : List Char} (h : obr ∉ l) : scanVars l = [] :=
  scanVarsF_nil _ l h

theorem scanIncs_nil {l : List Char} (h : obr ∉ l) : scanIncs l = [] :=
  scanIncsF_nil _ l h

theorem scanEach_nil {l : List Char} (h : obr ∉ l) : scanEach l = [] :=
  scanEachF_nil _ l h

theorem scanIf_nil {l : List Char} (h : obr ∉ l) : scanIf l = [] :=
  scanIfF_nil _ l h

theorem getSubstitution_noDollar (m b a : List Char) :
    ∀ {rep : List Char}, dollar ∉ rep → getSubstitution m b a rep = rep := by
  intro rep
  induction rep with
  | nil => intro _; rfl
  | cons c rest ih =>
    intro h
    cases rest with
    | nil => rfl
    | cons d rest' =>
      have hc : ¬c = dollar :=
        fun he => h (he ▸ List.mem_cons_self c (d :: rest'))
      rw [getSubstitution, if_neg hc,
        ih (fun hm => h (List.mem_cons_of_mem c hm))]

theorem replaceFirstL_self (l rep : List Char) (h : l ≠ []) :
    replaceFirstL l l rep = getSubstitution l [] [] rep := by
  unfold replaceFirstL
  cases l with
  | nil => exact absurd rfl h
  | cons c t =>
    unfold findIdx
    rw [if_pos (by rw [ List.isPrefixOf_iff_prefix])]
    simp [List.drop_length]

theorem runIncPass_of_scan_nil (store : String → String) {t : List Char}
    (h : scanIncs t = []) : runIncPass store t = t := by
  rw [runIncPass, h]
  rfl

theorem runEachPass_of_scan_nil (r : List Char → Obj → List Char) (ctx : Obj)
    {t : List Char} (h : scanEach t = []) : runEachPass r ctx t = t := by
  rw [runEachPass, h]
  rfl

theorem runIfPass_of_scan_nil (ctx : Obj) {t : List Char}
    (h : scanIf t = []) : runIfPass ctx t = t := by
  rw [runIfPass, h]
  rfl

theorem runVarPass_of_scan_nil (ctx : Obj) {t : List Char}
    (h : scanVars t = []) : runVarPass ctx t = t := by
  rw [runVarPass, h]
  rfl

theorem renderTemplate_fst (year : Int) (store : String → String)
    (fuel : Nat) (t : String) (ctx : Obj) :
    (renderTemplate year store fuel t ctx).1
      = ⟨(renderT year store fuel t.data ctx).1⟩ := rfl

theorem renderT_succ (year : Int) (store : String → String) (f : Nat)
    {t : List Char} (ht : ¬t = []) (ctx : Obj) :
    renderT year store (f + 1) t ctx
      = (runVarPass (setProp ctx "currentYear" (Value.vNum year))
          (runIfPass (setProp ctx "currentYear" (Value.vNum year))
            (runEachPass (fun b c => (renderT year store f b c).1)
              (setProp ctx "currentYear" (Value.vNum year))
              (runIncPass store t))),
        setProp ctx "currentYear" (Value.vNum year)) := by
  simp only [renderT, if_neg ht]

theorem runIfPass_noBrace (ctx : Obj) {t : List Char} (h : obr ∉ t) :
    runIfPass ctx t = t := runIfPass_of_scan_nil ctx (scanIf_nil h)

theorem runVarPass_noBrace (ctx : Obj) {t : List Char} (h : obr ∉ t) :
    runVarPass ctx t = t := runVarPass_of_scan_nil ctx (scanVars_nil h)

theorem natToDecF_ne_nil (f n : Nat) (h : 0 < f) : natToDecF f n ≠ [] := by
  cases f with
  | zero => omega
  | succ f =>
    unfold natToDecF
    split
    · simp
    · simp

theorem pageFileName_ne_index1 (n : Nat) (h : 0 < n) :
    pageFileName n ≠ "index-1.html" := by
  intro he
  by_cases hn : n < 10
  · interval_cases n <;> revert he <;> decide
  · have h1 : n ≠ 1 := by omega
    have hlen : (pageFileName n).data.length = 12 := by rw [he]; rfl
    unfold pageFileName at hlen
    rw [if_neg h1] at hlen
    simp only [String.data_append, List.length_append] at hlen
    have hlen2 : (natToDec n).data.length = 1 := by
      have e1 : ("index-" : String).data.length = 6 := rfl
      have e2 : (".html" : String).data.length = 5 := rfl
      simp only [e1, e2] at hlen ⊢
      omega
    have hmk : (natToDec n).data = natToDecF (n + 1) n := rfl
    rw [hmk] at hlen2
    unfold natToDecF at hlen2
    rw [if_neg hn] at hlen2
    have hne := natToDecF_ne_nil n (n / 10) (by omega)
    simp only [List.length_append, List.length_cons, List.length_nil] at hlen2
    exact hne (List.length_eq_zero.mp (by omega))

/-! ## Claims -/

/-- C3: given two posts both titled "Hello World", the data extractor's
`sanitizeSlug` + `ensureUniqueSlug` pipeline yields the slugs `hello-world`
and `hello-world-1`, and the output files `public/<slug>.html` derived from
those slugs are distinct, so the second post does not overwrite the first. -/
theorem slug_collision_resolution :
    slugsOfTitles ["Hello World", "Hello World"]
      = ["hello-world", "hello-world-1"]
    ∧ ((slugsOfTitles ["Hello World", "Hello World"]).map
        (fun s => "public/" ++ s ++ ".html")).Nodup := by
  constructor
  · decide
  · decide

/-- C10: `generateIndex` hands page 2 the previous-page URL
`/yuushacms/index-1.html`, yet `processContent` names page 1 `index.html`
and every later page `index-N.html` with `N ≥ 2`, so no build ever writes a
pagination file called `index-1.html`: the link for page 2 always references
a file name the generator never creates. -/
theorem prevPage_dangling_reference :
    prevPageOf 2 = some "/yuushacms/index-1.html"
    ∧ ∀ n, 0 < n → pageFileName n ≠ "index-1.html" := by
  constructor
  · decide
  · exact pageFileName_ne_index1

/-- C10 witness: page 2's previous-page URL at the concrete build, and the
concrete page file names 1, 2, 3 all differ from `index-1.html`. -/
theorem prevPage_dangling_reference_witness :
    prevPageOf 2 = some "/yuushacms/index-1.html"
    ∧ pageFileName 1 ≠ "index-1.html"
    ∧ pageFileName 2 ≠ "index-1.html"
    ∧ pageFileName 3 ≠ "index-1.html" :=
  ⟨prevPage_dangling_reference.1,
    prevPage_dangling_reference.2 1 (by decide),
    prevPage_dangling_reference.2 2 (by decide),
    prevPage_dangling_reference.2 3 (by decide)⟩

/-- C2 counterexample: the claim fails in two ways. A `{{ name }}` marker
does not become the empty string exactly when `context[name]` is undefined:
for the defined, falsy value `0` the renderer (`context[key] || ''`) also
produces the empty string although the string form of `0` is `"0"`. And a
truthy value is not inserted as-is: JS `replace` expands dollar patterns in
the replacement, so the value `"$$"` renders as `"$"`. -/
theorem variable_substitution_cex :
    getProp [("x", Value.vNum 0)] "x" = some (Value.vNum 0)
    ∧ toJsString (Value.vNum 0) = "0"
    ∧ (renderTemplate 2025 (fun _ => "") 1 "\x7b\x7b x \x7d\x7d"
        [("x", Value.vNum 0)]).1 = ""
    ∧ (renderTemplate 2025 (fun _ => "") 1 "\x7b\x7b x \x7d\x7d"
        [("x", Value.vNum 0)]).1 ≠ toJsString (Value.vNum 0)
    ∧ toJsString (Value.vStr "$$") = "$$"
    ∧ truthy (Value.vStr "$$") = true
    ∧ (renderTemplate 2025 (fun _ => "") 1 "\x7b\x7b x \x7d\x7d"
        [("x", Value.vStr "$$")]).1 = "$"
    ∧ (renderTemplate 2025 (fun _ => "") 1 "\x7b\x7b x \x7d\x7d"
        [("x", Value.vStr "$$")]).1 ≠ toJsString (Value.vStr "$$") := by
  refine ⟨rfl, by decide, by decide, by decide, by decide, by decide,
    by decide, by decide⟩

/-- C6 counterexample: in `ssg.js`'s `processContent` the per-file loop has
no `try`/`catch`, so a batch `[ok, error, ok]` aborts at the failing file
with no posts produced, while the `part_004` variant of `processContent`
isolates the failure and still produces the two good posts. -/
theorem per_file_isolation_cex :
    processContentE
      [("a.md", .ok ([("title", Value.vStr "A")], "x")),
        ("b.md", .error "EIO"),
        ("c.md", .ok ([("title", Value.vStr "C")], "y"))]
      = .error "EIO"
    ∧ (processContent004
      [("a.md", .ok ([("title", Value.vStr "A")], "x")),
        ("b.md", .error "EIO"),
        ("c.md", .ok ([("title", Value.vStr "C")], "y"))]).length = 2 := by
  refine ⟨rfl, rfl⟩

/-- C8 counterexample: the claim says tag pages live under the directory
named by applying `sanitizeTagValue` once to the original tag value; but
`generateTagPages` re-sanitizes the already-sanitized bucket key, so for the
tag value `"C++"` the once-sanitized value is `c%2B%2B` while the directory
actually used is `tags/genre/c%252b%252b`. -/
theorem tag_page_path_cex :
    sanitizeTagValue "C++" = "c%2B%2B"
    ∧ tagPageDir "genre" (bucketKey "C++") = "public/tags/genre/c%252b%252b"
    ∧ tagPageDir "genre" (bucketKey "C++")
        ≠ "public/tags/genre/" ++ sanitizeTagValue "C++" := by
  refine ⟨by decide, by decide, by decide⟩

/-- C9 counterexample: `renderTemplate` is not a pure function of template,
context, and store contents, and it does not leave the caller's context
unchanged: the call stores `currentYear` into the caller's context object,
and with equal template/context/store but a different clock year the
rendered string differs. -/
theorem renderTemplate_not_pure_cex :
    (renderTemplate 2025 (fun _ => "") 1 "a" []).2 ≠ ([] : Obj)
    ∧ getProp ((renderTemplate 2025 (fun _ => "") 1 "a" []).2) "currentYear"
        = some (Value.vNum 2025)
    ∧ (renderTemplate 2025 (fun _ => "") 1
        "\x7b\x7b currentYear \x7d\x7d" []).1
      ≠ (renderTemplate 2026 (fun _ => "") 1
        "\x7b\x7b currentYear \x7d\x7d" []).1 := by
  refine ⟨?_, rfl, by decide⟩
  intro h
  exact absurd (congrArg List.length h) (by decide)

/-- C9 amended: `renderTemplate` is a pure function of template, context,
store contents and the current year, and its only effect on the caller's
context is to set `currentYear` to the current year; every other key keeps
its value. -/
theorem renderTemplate_frame (year : Int) (store : String → String)
    (fuel : Nat) (t : String) (ctx : Obj) (hf : 0 < fuel) (ht : t ≠ "") :
    getProp ((renderTemplate year store fuel t ctx).2) "currentYear"
      = some (Value.vNum year)
    ∧ ∀ k, k ≠ "currentYear" →
      getProp ((renderTemplate year store fuel t ctx).2) k = getProp ctx k := by
  obtain ⟨f, rfl⟩ : ∃ f, fuel = f + 1 := ⟨fuel - 1, by omega⟩
  have hd : t.data ≠ [] := by
    intro hdat
    exact ht (String.ext hdat)
  have hsnd : (renderTemplate year store (f + 1) t ctx).2
      = setProp ctx "currentYear" (Value.vNum year) := by
    unfold renderTemplate
    simp only [renderT, if_neg hd]
  rw [hsnd]
  exact ⟨getProp_setProp_same ctx _ _,
    fun k hk => getProp_setProp_ne ctx _ k _ hk⟩

theorem renderT_one_var (year : Int) (store : String → String) (ctx : Obj) :
    renderT year store 1 varTemplate.data ctx
      = (getSubstitution varTemplate.data [] []
          (orEmpty (getProp (setProp ctx "currentYear" (Value.vNum year))
            "x")).data,
        setProp ctx "currentYear" (Value.vNum year)) := by
  have h0 : ¬varTemplate.data = [] := by decide
  have h1 : scanIncs varTemplate.data = [] := rfl
  have h2 : scanEach varTemplate.data = [] := rfl
  have h3 : scanIf varTemplate.data = [] := rfl
  have h4 : scanVars varTemplate.data = [(varTemplate.data, "x")] := rfl
  simp only [renderT, if_neg h0, runIncPass_of_scan_nil store h1,
    runEachPass_of_scan_nil _ _ h2, runIfPass_of_scan_nil _ h3]
  rw [runVarPass, h4, List.foldl_cons, List.foldl_nil]
  rw [replaceFirstL_self _ _ h0]

/-- C2 amended: every remaining `{{ name }}` marker is replaced by
`context[name] || ''` — the string form of the value when it is truthy and
the empty string when it is falsy or undefined — with the replacement
processed by JS `replace`'s GetSubstitution, so dollar patterns in the value
are expanded rather than copied; a truthy value containing no dollar sign is
inserted as-is, with no other escaping or transformation. -/
theorem variable_substitution_amended (year : Int) (store : String → String)
    (v : Value) :
    (renderTemplate year store 1 varTemplate [("x", v)]).1
      = (⟨getSubstitution varTemplate.data [] []
          (if truthy v then (toJsString v).data else [])⟩ : String)
    ∧ (dollar ∉ (toJsString v).data →
        (renderTemplate year store 1 varTemplate [("x", v)]).1
          = (if truthy v then toJsString v else ""))
    ∧ (renderTemplate year store 1 varTemplate []).1 = "" := by
  have hx : getProp (setProp [("x", v)] "currentYear" (Value.vNum year)) "x"
      = some v := by
    rw [getProp_setProp_ne _ _ _ _ (by decide)]
    simp [getProp]
  refine ⟨?_, ?_, ?_⟩
  · rw [renderTemplate_fst, renderT_one_var, hx]
    by_cases ht : truthy v
    · simp [orEmpty, ht]
    · simp [orEmpty, ht]
  · intro hd
    rw [renderTemplate_fst, renderT_one_var, hx]
    by_cases ht : truthy v
    · simp only [orEmpty, ht, if_true]
      rw [getSubstitution_noDollar _ _ _ hd]
    · simp only [orEmpty, ht, if_false]
      rfl
  · rw [renderTemplate_fst, renderT_one_var]
    rw [show getProp (setProp ([] : Obj) "currentYear" (Value.vNum year)) "x"
      = none from rfl]
    rfl

/-- C2 witness: the amended substitution law applied to the dollar-free
truthy value `hello`. -/
theorem variable_substitution_amended_witness :
    (renderTemplate 2025 (fun _ => "") 1 varTemplate
      [("x", Value.vStr "hello")]).1 = "hello" := by
  have h := (variable_substitution_amended 2025 (fun _ => "")
    (Value.vStr "hello")).2.1 (by decide)
  exact h.trans (by decide)

theorem flatten_slices_take (l : List α) (pp : Nat) : ∀ T : Nat,
    ((List.range T).map (fun i => (l.drop (i * pp)).take pp)).flatten
      = l.take (T * pp) := by
  intro T
  induction T with
  | zero => simp
  | succ T ih =>
    rw [List.range_succ, List.map_append, List.flatten_append]
    simp only [List.map_cons, List.map_nil, List.flatten_cons,
      List.flatten_nil, List.append_nil]
    rw [ih, Nat.succ_mul, List.take_add]

theorem le_totalPages_mul (n pp : Nat) (h : 0 < pp) :
    n ≤ totalPagesOf n pp * pp := by
  have hle := le_smul_ceilDiv (α := ℕ) (β := ℕ) h (b := n)
  rw [smul_eq_mul] at hle
  rw [totalPagesOf, ← Nat.ceilDiv_eq_add_pred_div, mul_comm]
  exact hle

/-- C4: pagination. The number of post slices equals
`ceil(totalPosts / pageSize)` and the slices partition the post list in
order; page 1 is written as `index.html` and page `N > 1` as
`index-N.html`; page 1 gets no `prevPage` and the last page gets no
`nextPage`, every other boundary link is set; for 25 posts with page size
10 there are 3 pages, page 1 holds 10 posts (nextPage set, no prevPage)
and page 3 holds 5 posts (prevPage set, no nextPage). -/
theorem pagination_spec {α : Type} (posts : List α) (pp : Nat) (hpp : 0 < pp) :
    (postSlices posts pp).length = totalPagesOf posts.length pp
    ∧ (postSlices posts pp).flatten = posts
    ∧ pageFileName 1 = "index.html"
    ∧ (∀ n, 1 < n → pageFileName n = "index-" ++ natToDec n ++ ".html")
    ∧ prevPageOf 1 = none
    ∧ nextPageOf (totalPagesOf posts.length pp)
        (totalPagesOf posts.length pp) = none
    ∧ (∀ n, 1 < n → prevPageOf n ≠ none)
    ∧ (∀ n tp, n < tp → nextPageOf n tp ≠ none)
    ∧ (posts.length = 25 → pp = 10 →
        totalPagesOf posts.length pp = 3
        ∧ (postSlices posts pp).map List.length = [10, 10, 5]
        ∧ nextPageOf 1 3 ≠ none
        ∧ prevPageOf 3 ≠ none
        ∧ nextPageOf 3 3 = none) := by
  refine ⟨?_, ?_, rfl, ?_, rfl, ?_, ?_, ?_, ?_⟩
  · simp [postSlices]
  · rw [postSlices, flatten_slices_take]
    exact List.take_of_length_le (le_totalPages_mul _ _ hpp)
  · intro n hn
    unfold pageFileName
    rw [if_neg (by omega)]
  · unfold nextPageOf
    rw [if_neg (by omega)]
  · intro n hn
    unfold prevPageOf
    rw [if_pos hn]
    simp
  · intro n tp h
    unfold nextPageOf
    rw [if_pos h]
    simp
  · intro h25 h10
    have ht : totalPagesOf posts.length pp = 3 := by rw [h25, h10]; rfl
    refine ⟨ht, ?_, by decide, by decide, by decide⟩
    rw [postSlices, ht, h10]
    simp [List.range_succ, List.length_take, List.length_drop, h25]

/-- C4 witness: pagination facts at the concrete build of 25 posts with
page size 10. -/
theorem pagination_spec_witness :
    (postSlices (List.range 25) 10).flatten = List.range 25
    ∧ (postSlices (List.range 25) 10).map List.length = [10, 10, 5] :=
  ⟨(pagination_spec (List.range 25) 10 (by decide)).2.1,
    ((pagination_spec (List.range 25) 10 (by decide)).2.2.2.2.2.2.2.2
      (by simp) rfl).2.1⟩

theorem processContent_fold (files : List (String × Obj × String)) :
    ∀ acc : List PostRec × List SkipRec,
    files.foldl processStep acc
      = (acc.1 ++ (files.filter
            (fun f => truthyProp f.2.1 "title")).map postOf,
         acc.2 ++ (files.filter
            (fun f => !truthyProp f.2.1 "title")).map skipOf) := by
  induction files with
  | nil => intro acc; simp
  | cons f t ih =>
    intro acc
    rw [List.foldl_cons]
    by_cases hf : truthyProp f.2.1 "title"
    · have hstep : processStep acc f = (acc.1 ++ [postOf f], acc.2) := by
        simp [processStep, hf]
      rw [hstep, ih]
      simp [List.filter_cons, hf]
    · have hstep : processStep acc f = (acc.1, acc.2 ++ [skipOf f]) := by
        simp [processStep, hf]
      rw [hstep, ih]
      simp [List.filter_cons, hf]

/-- C5: missing-title skip invariant. The post list and skipped list of
`processContent` are exactly the title-bearing and title-less files in
order; when front-matter titles are strings, every post in the final list
carries a non-empty string title; and every file without a truthy title
yields no post but a `(title-guess, link-guess)` entry, both guesses derived
from its file name. -/
theorem missing_title_skip (files : List (String × Obj × String))
    (hs : ∀ f ∈ files, ∀ v, getProp f.2.1 "title" = some v →
      ∃ s, v = Value.vStr s) :
    (processContent files).1
      = (files.filter (fun f => truthyProp f.2.1 "title")).map postOf
    ∧ (processContent files).2
      = (files.filter (fun f => !truthyProp f.2.1 "title")).map skipOf
    ∧ (∀ p ∈ (processContent files).1, ∃ s, p.1 = Value.vStr s ∧ s ≠ "")
    ∧ ∀ f ∈ files, ¬truthyProp f.2.1 "title" →
        skipOf f ∈ (processContent files).2 := by
  have hc := processContent_fold files ([], [])
  simp only [List.nil_append] at hc
  have h1 : (processContent files).1
      = (files.filter (fun f => truthyProp f.2.1 "title")).map postOf := by
    rw [processContent, hc]
  have h2 : (processContent files).2
      = (files.filter (fun f => !truthyProp f.2.1 "title")).map skipOf := by
    rw [processContent, hc]
  refine ⟨h1, h2, ?_, ?_⟩
  · intro p hp
    rw [h1] at hp
    obtain ⟨f, hf, rfl⟩ := List.mem_map.mp hp
    obtain ⟨hfmem, hft⟩ := List.mem_filter.mp hf
    unfold truthyProp at hft
    cases hv : getProp f.2.1 "title" with
    | none => rw [hv] at hft; simp at hft
    | some v =>
      rw [hv] at hft
      obtain ⟨s, rfl⟩ := hs f hfmem v hv
      have hse : s ≠ "" := by
        simpa [truthy] using hft
      refine ⟨s, ?_, hse⟩
      simp [postOf, hv, jsOrV, truthy, hse]
  · intro f hf hft
    rw [h2]
    exact List.mem_map.mpr ⟨f, List.mem_filter.mpr ⟨hf, by simpa using hft⟩, rfl⟩

/-- C5 witness: a batch with one titled file and one title-less file; the
skipped report holds the file-name guesses and the post list carries the
non-empty title. -/
theorem missing_title_skip_witness :
    ("games/x", "games/x.html") ∈
      (processContent [("a.md", ([("title", Value.vStr "Hi")] : Obj), "b"),
        ("games/x.md", ([] : Obj), "c")]).2
    ∧ ∀ p ∈ (processContent
        [("a.md", ([("title", Value.vStr "Hi")] : Obj), "b"),
          ("games/x.md", ([] : Obj), "c")]).1,
        ∃ s, p.1 = Value.vStr s ∧ s ≠ "" := by
  have hs : ∀ f ∈ [("a.md", ([("title", Value.vStr "Hi")] : Obj), "b"),
      ("games/x.md", ([] : Obj), "c")], ∀ v,
      getProp f.2.1 "title" = some v → ∃ s, v = Value.vStr s := by
    intro f hf v hv
    simp only [List.mem_cons, List.not_mem_nil, or_false] at hf
    rcases hf with rfl | rfl
    · simp [getProp] at hv
      exact ⟨"Hi", hv.symm⟩
    · simp [getProp] at hv
  refine ⟨?_, (missing_title_skip _ hs).2.2.1⟩
  exact (missing_title_skip _ hs).2.2.2 ("games/x.md", ([] : Obj), "c")
    (by simp) (by decide)

/-- C6 amended: per-file failure isolation holds in the `part_004` variant —
its batch always produces exactly the posts of the successfully read files,
in order, regardless of interleaved failures — while in `ssg.js`'s
`processContent` (which has no per-file catch) the first failing file aborts
the whole batch, so the remaining files are never processed. -/
theorem per_file_isolation_amended (files : List FileR) :
    processContent004 files
      = files.filterMap (fun f =>
          match f.2 with
          | .ok d => some
              (jsOrV (getProp d.1 "title")
                  (.vStr (replaceFirstS f.1 ".md" "")),
                slug004 f.1 d.1 ++ ".html")
          | .error _ => none)
    ∧ ∀ (pre rest : List FileR) (name e : String),
        (∀ f ∈ pre, ∃ d, f.2 = .ok d) →
        processContentE (pre ++ (name, .error e) :: rest) = .error e := by
  constructor
  · induction files with
    | nil => rfl
    | cons f t ih =>
      obtain ⟨nm, res⟩ := f
      cases res with
      | error e => simpa [processContent004, List.filterMap_cons] using ih
      | ok d =>
        obtain ⟨fm, body⟩ := d
        simpa [processContent004, List.filterMap_cons] using ih
  · intro pre
    induction pre with
    | nil => intro rest name e _; rfl
    | cons f t ih =>
      intro rest name e hpre
      obtain ⟨d, hd⟩ := hpre f (List.mem_cons_self f t)
      obtain ⟨nm, res⟩ := f
      simp only at hd
      subst hd
      obtain ⟨fm, body⟩ := d
      have ihr := ih rest name e
        (fun g hg => hpre g (List.mem_cons_of_mem _ hg))
      simp only [List.cons_append, processContentE]
      by_cases hft : truthyProp fm "title"
      · simp [hft, ihr]
      · simp [hft, ihr]

/-- C6 witness: a concrete good file before a failing file: the `ssg.js`
pipeline model rejects the whole batch with the file's error. -/
theorem per_file_isolation_amended_witness :
    processContentE
      ([("a.md", .ok (([("title", Value.vStr "A")] : Obj), "x"))]
        ++ ("b.md", .error "EIO") :: [("c.md", .ok (([] : Obj), "y"))])
      = .error "EIO" :=
  (per_file_isolation_amended []).2
    [("a.md", .ok (([("title", Value.vStr "A")] : Obj), "x"))]
    [("c.md", .ok (([] : Obj), "y"))] "b.md" "EIO"
    (by
      intro f hf
      simp only [List.mem_singleton] at hf
      subst hf
      exact ⟨_, rfl⟩)

/-- C8 amended: tag pages of a bucket are written under
`tags/<tagType>/<v>/` where `v` is the sanitization applied twice to the
original tag value — once when the bucket key is built in `processContent`
and once more in `generateTagPages` — with the first page named
`index.html` and page `N > 1` named `page-N.html`. -/
theorem tag_page_paths_amended (tagType tv : String) (numPosts pp : Nat)
    (hpp : 0 < pp) (hn : 0 < numPosts) :
    tagPageFiles tagType (bucketKey tv) numPosts pp
      = (List.range (totalPagesOf numPosts pp)).map
          (fun i => "public/tags/" ++ tagType ++ "/"
            ++ sanitizeTagValue (sanitizeTagValue tv) ++ "/"
            ++ (if i + 1 = 1 then "index.html"
                else "page-" ++ natToDec (i + 1) ++ ".html"))
    ∧ (tagPageFiles tagType (bucketKey tv) numPosts pp).head?
      = some ("public/tags/" ++ tagType ++ "/"
          ++ sanitizeTagValue (sanitizeTagValue tv) ++ "/index.html")
    ∧ (tagPageFiles tagType (bucketKey tv) numPosts pp).length
      = totalPagesOf numPosts pp := by
  have hT : 0 < totalPagesOf numPosts pp := by
    unfold totalPagesOf
    have h1 : 1 * pp ≤ numPosts + pp - 1 := by omega
    have h2 := (Nat.le_div_iff_mul_le hpp).mpr h1
    omega
  refine ⟨rfl, ?_, by simp [tagPageFiles]⟩
  obtain ⟨m, hm⟩ : ∃ m, totalPagesOf numPosts pp = m + 1 :=
    ⟨totalPagesOf numPosts pp - 1, by omega⟩
  unfold tagPageFiles
  rw [hm, List.range_succ_eq_map]
  simp only [List.map_cons, List.head?_cons, tagPageDir, bucketKey,
    tagPageFileName, if_pos rfl, Option.some.injEq]
  apply String.ext
  simp [String.data_append]

/-- C8 witness: the amended path law at a concrete bucket. -/
theorem tag_page_paths_amended_witness :
    (tagPageFiles "genre" (bucketKey "C++") 1 10).head?
      = some "public/tags/genre/c%252b%252b/index.html" :=
  (tag_page_paths_amended "genre" "C++" 1 10 (by decide) (by decide)).2.1

/-! ### Slug idempotence infrastructure (C7) -/

/-- Characters a sanitized slug can contain: lower-case ASCII alphanumerics
and the hyphen. -/
def goodChar (c : Char) : Prop := isLowerAlnum c = true ∨ c = hyph

/-- No two adjacent hyphens. -/
def noAdjHyph (l : List Char) : Prop :=
  l.Chain' (fun a b => ¬(a = hyph ∧ b = hyph))

/-- Shape of a non-defaulted `sanitizeSlug` output. -/
def GoodSlug (l : List Char) : Prop :=
  l ≠ [] ∧ (∀ c ∈ l, goodChar c) ∧ noAdjHyph l
    ∧ l.head? ≠ some hyph ∧ l.getLast? ≠ some hyph ∧ l.length ≤ 50

theorem isLowerAlnum_iff (c : Char) : isLowerAlnum c = true ↔
    (97 ≤ c.toNat ∧ c.toNat ≤ 122) ∨ (48 ≤ c.toNat ∧ c.toNat ≤ 57) := by
  simp [isLowerAlnum]

theorem jsIsSpace_iff (c : Char) : jsIsSpace c = true ↔
    (c.toNat = 32 ∨ c.toNat = 9 ∨ c.toNat = 10 ∨ c.toNat = 11 ∨
     c.toNat = 12 ∨ c.toNat = 13 ∨ c.toNat = 160 ∨ c.toNat = 0x1680 ∨
     (0x2000 ≤ c.toNat ∧ c.toNat ≤ 0x200a) ∨ c.toNat = 0x2028 ∨
     c.toNat = 0x2029 ∨ c.toNat = 0x202f ∨ c.toNat = 0x205f ∨
     c.toNat = 0x3000 ∨ c.toNat = 0xfeff) := by
  simp [jsIsSpace, jsIsSpaceN]
  tauto

theorem sepish_iff (c : Char) : sepish c = true ↔
    jsIsSpace c = true ∨ c = hyph := by
  simp [sepish]

theorem hyph_toNat : hyph.toNat = 45 := by decide

theorem toLower_goodChar {c : Char} (h : goodChar c) : Char.toLower c = c := by
  rcases h with h | h
  · rw [isLowerAlnum_iff] at h
    have hb : ¬(c.toNat ≥ 65 ∧ c.toNat ≤ 90) := by omega
    simp only [Char.toLower]
    rw [if_neg hb]
  · rw [h]; decide

theorem jsIsSpace_goodChar {c : Char} (h : goodChar c) :
    jsIsSpace c = false := by
  rcases h with h | h
  · rw [isLowerAlnum_iff] at h
    rw [Bool.eq_false_iff]
    intro hs
    rw [jsIsSpace_iff] at hs
    omega
  · rw [h]; decide

theorem sepish_alnum {c : Char} (h : isLowerAlnum c = true) :
    sepish c = false := by
  rw [isLowerAlnum_iff] at h
  rw [Bool.eq_false_iff]
  intro hs
  rw [sepish_iff] at hs
  rcases hs with hs | hs
  · rw [jsIsSpace_iff] at hs
    omega
  · rw [hs, hyph_toNat] at h
    omega

theorem keepChar_goodChar {c : Char} (h : goodChar c) : keepChar c = true := by
  rcases h with h | h
  · simp [keepChar, h]
  · rw [h]; decide

theorem alnum_of_keep_not_sepish {c : Char} (hk : keepChar c = true)
    (hs : sepish c = false) : isLowerAlnum c = true := by
  simp only [keepChar, Bool.or_eq_true] at hk
  rcases hk with (hk | hk) | hk
  · exact hk
  · rw [sepish, hk] at hs
    simp at hs
  · rw [Bool.eq_false_iff] at hs
    exact absurd (by rw [sepish_iff]; right; exact beq_iff_eq.mp hk) hs

theorem ne_hyph_of_not_sepish {c : Char} (hs : sepish c = false) :
    c ≠ hyph := by
  intro he
  rw [he] at hs
  simp [sepish] at hs

theorem sepish_hyph : sepish hyph = true := by decide

theorem dropWhile_eq_self_of_all {p : Char → Bool} {l : List Char}
    (h : ∀ c ∈ l, p c = false) : l.dropWhile p = l := by
  cases l with
  | nil => rfl
  | cons c t =>
    rw [List.dropWhile_cons, if_neg]
    rw [h c (List.mem_cons_self c t)]
    simp

theorem jsTrim_eq_self {l : List Char} (h : ∀ c ∈ l, jsIsSpace c = false) :
    jsTrim l = l := by
  unfold jsTrim
  rw [dropWhile_eq_self_of_all h,
    dropWhile_eq_self_of_all (fun c hc => h c (List.mem_reverse.mp hc)),
    List.reverse_reverse]

theorem map_toLower_eq_self {l : List Char} (h : ∀ c ∈ l, goodChar c) :
    l.map Char.toLower = l := by
  induction l with
  | nil => rfl
  | cons c t ih =>
    rw [List.map_cons, toLower_goodChar (h c (List.mem_cons_self c t)),
      ih (fun d hd => h d (List.mem_cons_of_mem c hd))]

theorem collapseSepF_eq_self : ∀ (f : Nat) (l : List Char),
    (∀ c ∈ l, goodChar c) → noAdjHyph l → collapseSepF f l = l := by
  intro f
  induction f with
  | zero => intro l _ _; rfl
  | succ f ih =>
    intro l hg hadj
    cases l with
    | nil => rfl
    | cons c t =>
      have hgc := hg c (List.mem_cons_self c t)
      have hgt : ∀ d ∈ t, goodChar d :=
        fun d hd => hg d (List.mem_cons_of_mem c hd)
      have hadjt : noAdjHyph t := hadj.tail
      rcases hgc with hca | hch
      · rw [collapseSepF]
        rw [if_neg (by rw [sepish_alnum hca]; simp)]
        rw [ih t hgt hadjt]
      · subst hch
        rw [collapseSepF, if_pos (by rw [sepish_hyph])]
        have hdrop : t.dropWhile sepish = t := by
          cases t with
          | nil => rfl
          | cons d t' =>
            have hd : sepish d = false := by
              have hrel := (List.chain'_cons.mp hadj).1
              have hdg := hgt d (List.mem_cons_self d t')
              rcases hdg with hda | hdh
              · exact sepish_alnum hda
              · exact absurd ⟨rfl, hdh⟩ hrel
            rw [List.dropWhile_cons, if_neg (by rw [hd]; simp)]
        rw [hdrop, ih t hgt hadjt]

theorem dropLeadSep_eq_self {l : List Char} (h : l.head? ≠ some hyph) :
    dropLeadSep l = l := by
  cases l with
  | nil => rfl
  | cons c t =>
    rw [dropLeadSep, if_neg]
    intro he
    exact h (by rw [he]; rfl)

theorem stripSep_eq_self {l : List Char} (h1 : l.head? ≠ some hyph)
    (h2 : l.getLast? ≠ some hyph) : stripSep l = l := by
  unfold stripSep
  rw [dropLeadSep_eq_self h1, dropLeadSep_eq_self (by
    rw [List.head?_reverse]
    exact h2), List.reverse_reverse]

theorem slugStages_goodSlug {l : List Char} (h : GoodSlug l) :
    slugStages l = l := by
  obtain ⟨hne, hg, hadj, hh, hl, hlen⟩ := h
  unfold slugStages
  rw [map_toLower_eq_self hg,
    jsTrim_eq_self (fun c hc => jsIsSpace_goodChar (hg c hc)),
    List.filter_eq_self.mpr (fun c hc => keepChar_goodChar (hg c hc))]
  rw [show collapseSep l = l from collapseSepF_eq_self _ l hg hadj]
  rw [List.take_of_length_le hlen, stripSep_eq_self hh hl]

theorem sanitizeSlugL_goodSlug {l : List Char} (h : GoodSlug l) :
    sanitizeSlugL l = l := by
  unfold sanitizeSlugL
  rw [if_neg h.1, slugStages_goodSlug h, if_neg h.1]

theorem collapseSepF_nil (f : Nat) : collapseSepF f [] = [] := by
  cases f <;> rfl

theorem collapseSepF_mem : ∀ (f : Nat) (m : List Char), m.length ≤ f →
    (∀ c ∈ m, keepChar c = true) → ∀ c ∈ collapseSepF f m, goodChar c := by
  intro f
  induction f with
  | zero =>
    intro m hlen _ c hc
    have hm : m = [] := List.length_eq_zero.mp (Nat.le_zero.mp hlen)
    subst hm
    exact absurd hc (List.not_mem_nil c)
  | succ f ih =>
    intro m hlen hk c hc
    cases m with
    | nil =>
      rw [collapseSepF_nil] at hc
      exact absurd hc (List.not_mem_nil c)
    | cons a t =>
      by_cases ha : sepish a
      · rw [collapseSepF, if_pos ha] at hc
        rcases List.mem_cons.mp hc with rfl | hc
        · exact Or.inr rfl
        · refine ih (t.dropWhile sepish) ?_ ?_ c hc
          · have := (List.dropWhile_sublist (l := t) sepish).length_le
            simp only [List.length_cons] at hlen
            omega
          · intro d hd
            exact hk d (List.mem_cons_of_mem a
              ((List.dropWhile_sublist sepish).subset hd))
      · rw [collapseSepF, if_neg ha] at hc
        rcases List.mem_cons.mp hc with rfl | hc
        · exact Or.inl (alnum_of_keep_not_sepish
            (hk c (List.mem_cons_self c t)) (by simpa using ha))
        · refine ih t ?_ ?_ c hc
          · simp only [List.length_cons] at hlen; omega
          · exact fun d hd => hk d (List.mem_cons_of_mem a hd)

theorem collapseSepF_head (f : Nat) (d : Char) (t : List Char)
    (h : sepish d = false) :
    (collapseSepF f (d :: t)).head? = some d := by
  cases f with
  | zero => rfl
  | succ f =>
    rw [collapseSepF, if_neg (by rw [h]; simp)]
    rfl

theorem dropWhile_head_false {p : Char → Bool} :
    ∀ (l : List Char) (d : Char) (r : List Char),
    l.dropWhile p = d :: r → p d = false := by
  intro l
  induction l with
  | nil => intro d r h; simp at h
  | cons a t ih =>
    intro d r h
    rw [List.dropWhile_cons] at h
    by_cases hp : p a
    · rw [if_pos (by simpa using hp)] at h
      exact ih d r h
    · rw [if_neg (by simpa using hp)] at h
      cases h
      simpa using hp

theorem collapseSepF_chain : ∀ (f : Nat) (m : List Char), m.length ≤ f →
    (∀ c ∈ m, keepChar c = true) → noAdjHyph (collapseSepF f m) := by
  intro f
  induction f with
  | zero =>
    intro m hlen _
    have hm : m = [] := List.length_eq_zero.mp (Nat.le_zero.mp hlen)
    subst hm
    rw [collapseSepF_nil]
    exact List.chain'_nil
  | succ f ih =>
    intro m hlen hk
    cases m with
    | nil => exact List.chain'_nil
    | cons a t =>
      have hkt : ∀ d ∈ t, keepChar d = true :=
        fun d hd => hk d (List.mem_cons_of_mem a hd)
      by_cases ha : sepish a
      · rw [collapseSepF, if_pos ha]
        have hlen' : (t.dropWhile sepish).length ≤ f := by
          have := (List.dropWhile_sublist (l := t) sepish).length_le
          simp only [List.length_cons] at hlen
          omega
        have hkd : ∀ d ∈ t.dropWhile sepish, keepChar d = true :=
          fun d hd => hkt d ((List.dropWhile_sublist sepish).subset hd)
        rw [noAdjHyph, List.chain'_cons']
        refine ⟨?_, ih _ hlen' hkd⟩
        intro y hy
        cases hdw : t.dropWhile sepish with
        | nil =>
          rw [hdw, collapseSepF_nil] at hy
          simp at hy
        | cons d r =>
          have hdns : sepish d = false := dropWhile_head_false t d r hdw
          rw [hdw, collapseSepF_head f d r hdns] at hy
          simp only [Option.mem_def, Option.some.injEq] at hy
          subst hy
          intro hcon
          exact ne_hyph_of_not_sepish hdns hcon.2
      · rw [collapseSepF, if_neg ha]
        have hlen' : t.length ≤ f := by
          simp only [List.length_cons] at hlen; omega
        rw [noAdjHyph, List.chain'_cons']
        refine ⟨?_, ih t hlen' hkt⟩
        intro y _ hcon
        exact ne_hyph_of_not_sepish (by simpa using ha) hcon.1

theorem dropLead_eq_or_tail (l : List Char) :
    dropLeadSep l = l ∨ dropLeadSep l = l.tail := by
  cases l with
  | nil => exact Or.inl rfl
  | cons c t =>
    by_cases hc : c = hyph
    · right; rw [dropLeadSep, if_pos hc]; rfl
    · left; rw [dropLeadSep, if_neg hc]

theorem dropLead_head {l : List Char} (h : noAdjHyph l) :
    (dropLeadSep l).head? ≠ some hyph := by
  cases l with
  | nil => simp [dropLeadSep]
  | cons c t =>
    by_cases hc : c = hyph
    · rw [dropLeadSep, if_pos hc]
      cases t with
      | nil => simp
      | cons d t' =>
        subst hc
        have hrel := (List.chain'_cons.mp h).1
        simp only [List.head?_cons, ne_eq, Option.some.injEq]
        intro hd
        exact hrel ⟨rfl, hd⟩
    · rw [dropLeadSep, if_neg hc]
      simp only [List.head?_cons, ne_eq, Option.some.injEq]
      exact hc

theorem dropLead_getLast (l : List Char) :
    dropLeadSep l = [] ∨ (dropLeadSep l).getLast? = l.getLast? := by
  cases l with
  | nil => exact Or.inl rfl
  | cons c t =>
    by_cases hc : c = hyph
    · rw [dropLeadSep, if_pos hc]
      cases t with
      | nil => exact Or.inl rfl
      | cons d t' => exact Or.inr (List.getLast?_cons_cons).symm
    · rw [dropLeadSep, if_neg hc]
      exact Or.inr rfl

theorem noAdjHyph_reverse {l : List Char} (h : noAdjHyph l) :
    noAdjHyph l.reverse := by
  rw [noAdjHyph, List.chain'_reverse]
  exact h.imp (fun a b hab hcon => hab ⟨hcon.2, hcon.1⟩)

theorem slugStages_good (x : List Char) :
    slugStages x = [] ∨ GoodSlug (slugStages x) := by
  have hk3 : ∀ c ∈ (jsTrim (x.map Char.toLower)).filter keepChar,
      keepChar c = true := fun c hc => (List.mem_filter.mp hc).2
  have hg4 : ∀ c ∈ collapseSep ((jsTrim (x.map Char.toLower)).filter keepChar),
      goodChar c := collapseSepF_mem _ _ le_rfl hk3
  have hc4 : noAdjHyph
      (collapseSep ((jsTrim (x.map Char.toLower)).filter keepChar)) :=
    collapseSepF_chain _ _ le_rfl hk3
  set s5 := (collapseSep ((jsTrim (x.map Char.toLower)).filter keepChar)).take 50
    with hs5
  have hg5 : ∀ c ∈ s5, goodChar c := fun c hc => hg4 c (List.mem_of_mem_take hc)
  have hc5 : noAdjHyph s5 := hc4.take 50
  have hl5 : s5.length ≤ 50 := List.length_take_le 50 _
  set u := dropLeadSep s5 with hu
  have hu_head : u.head? ≠ some hyph := dropLead_head hc5
  have hu_mem : ∀ c ∈ u, goodChar c := by
    rcases dropLead_eq_or_tail s5 with he | he <;> rw [hu, he]
    · exact hg5
    · exact fun c hc => hg5 c (List.mem_of_mem_tail hc)
  have hu_chain : noAdjHyph u := by
    rcases dropLead_eq_or_tail s5 with he | he <;> rw [hu, he]
    · exact hc5
    · exact hc5.tail
  have hu_len : u.length ≤ 50 := by
    have htl : s5.tail.length ≤ s5.length := by
      cases hcase : s5 <;> simp
    rcases dropLead_eq_or_tail s5 with he | he <;> rw [hu, he]
    · exact hl5
    · omega
  set w := dropLeadSep u.reverse with hw
  have hrev_chain : noAdjHyph u.reverse := noAdjHyph_reverse hu_chain
  have hw_head : w.head? ≠ some hyph := dropLead_head hrev_chain
  have hs6 : slugStages x = w.reverse := rfl
  by_cases hemp : w.reverse = []
  · exact Or.inl (hs6.trans hemp)
  · right
    rw [hs6]
    have hw_mem : ∀ c ∈ w, goodChar c := by
      rcases dropLead_eq_or_tail u.reverse with he | he <;> rw [hw, he]
      · exact fun c hc => hu_mem c (List.mem_reverse.mp hc)
      · exact fun c hc =>
          hu_mem c (List.mem_reverse.mp (List.mem_of_mem_tail hc))
    have hw_chain : noAdjHyph w := by
      rcases dropLead_eq_or_tail u.reverse with he | he <;> rw [hw, he]
      · exact hrev_chain
      · exact hrev_chain.tail
    refine ⟨hemp, ?_, noAdjHyph_reverse hw_chain, ?_, ?_, ?_⟩
    · exact fun c hc => hw_mem c (List.mem_reverse.mp hc)
    · rw [List.head?_reverse]
      rcases dropLead_getLast u.reverse with he | he
      · rw [hw] at hemp ⊢
        rw [he]
        simp
      · rw [hw, he, List.getLast?_reverse]
        exact hu_head
    · rw [List.getLast?_reverse]
      exact hw_head
    · have e1 : w.reverse.length = w.length := List.length_reverse w
      have e2 : u.reverse.length = u.length := List.length_reverse u
      have h3 : w.length ≤ u.reverse.length := by
        have htl : u.reverse.tail.length ≤ u.reverse.length := by
          cases hcase : u.reverse <;> simp
        rcases dropLead_eq_or_tail u.reverse with he | he
        · rw [hw, he]
        · rw [hw, he]
          omega
      omega

theorem sanitizeSlugL_idem (l : List Char) :
    sanitizeSlugL (sanitizeSlugL l) = sanitizeSlugL l := by
  by_cases h0 : l = []
  · subst h0
    decide
  · rcases slugStages_good l with hz | hg
    · have he : sanitizeSlugL l = "post".data := by
        unfold sanitizeSlugL
        rw [if_neg h0, if_pos hz]
      rw [he]
      decide
    · have he : sanitizeSlugL l = slugStages l := by
        unfold sanitizeSlugL
        rw [if_neg h0, if_neg hg.1]
      rw [he]
      exact sanitizeSlugL_goodSlug hg

theorem string_foldl_append_data (L : List String) : ∀ acc : String,
    (L.foldl (· ++ ·) acc).data = acc.data ++ (L.map String.data).flatten := by
  induction L with
  | nil => intro acc; simp
  | cons s t ih =>
    intro acc
    rw [List.foldl_cons, ih]
    simp [List.append_assoc]

theorem string_join_data (L : List String) :
    (String.join L).data = (L.map String.data).flatten := by
  have h := string_foldl_append_data L ""
  simpa [String.join] using h

theorem renderT_item (year : Int) (store : String → String) (ctx1 it : Obj)
    (s : String) (hl : lastProp it "title" = some (Value.vStr s))
    (hne : s ≠ "") (hnd : dollar ∉ s.data) :
    renderT year store 1 eachBody.data (spread2 ctx1 it)
      = ("<li>".data ++ s.data ++ "</li>".data,
        setProp (spread2 ctx1 it) "currentYear" (Value.vNum year)) := by
  have h0 : ¬eachBody.data = [] := by decide
  have h1 : scanIncs eachBody.data = [] := rfl
  have h2 : scanEach eachBody.data = [] := rfl
  have h3 : scanIf eachBody.data = [] := rfl
  have h4 : scanVars eachBody.data
      = [(("\x7b\x7b title \x7d\x7d" : String).data, "title")] := rfl
  simp only [renderT, if_neg h0, runIncPass_of_scan_nil store h1,
    runEachPass_of_scan_nil _ _ h2, runIfPass_of_scan_nil _ h3]
  rw [runVarPass, h4, List.foldl_cons, List.foldl_nil]
  rw [getProp_setProp_ne _ _ _ _ (by decide), getProp_spread2, hl]
  rw [show ∀ z, optOr (some (Value.vStr s)) z = some (Value.vStr s) from
    fun z => rfl]
  rw [show orEmpty (some (Value.vStr s)) = s from by
    simp [orEmpty, truthy, toJsString, hne]]
  have hrw : replaceFirstL eachBody.data
      (("\x7b\x7b title \x7d\x7d" : String).data, "title").1 s.data
      = "<li>".data
        ++ getSubstitution ("\x7b\x7b title \x7d\x7d" : String).data
            "<li>".data "</li>".data s.data
        ++ "</li>".data := rfl
  rw [hrw, getSubstitution_noDollar _ _ _ hnd]

/-- C1 counterexample: the claim promises that each loop block is replaced
by the concatenation of the body rendered once per item with the merged
context; with an item title `$&`, JS `replace` expands `$&` in the inner
substitution to the matched marker text, and the later variable pass then
rewrites that marker against the outer context, so the whole render is
`<li>OUT</li>` while the concatenation of the per-item body renders is
`<li>{{ title }}</li>` — the block was not replaced by that concatenation. -/
theorem loop_substitution_cex :
    (renderTemplate 2025 (fun _ => "") 2 eachTemplate
        [("posts", Value.vArr [[("title", Value.vStr "$&")]]),
          ("title", Value.vStr "OUT")]).1 = "<li>OUT</li>"
    ∧ String.join ([[("title", Value.vStr "$&")]].map (fun it =>
        (renderTemplate 2025 (fun _ => "") 1 eachBody
          (spread2 (setProp
            [("posts", Value.vArr [[("title", Value.vStr "$&")]]),
              ("title", Value.vStr "OUT")]
            "currentYear" (Value.vNum 2025)) it)).1))
      = "<li>\x7b\x7b title \x7d\x7d</li>"
    ∧ ("<li>OUT</li>" : String) ≠ "<li>\x7b\x7b title \x7d\x7d</li>" := by
  refine ⟨by decide, by decide, by decide⟩

/-- C1 amended: for every context binding `posts` to an array of items, the
loop block of `{{#each posts}}<li>{{ title }}</li>{{/each}}` is replaced by
the concatenation, in item order, of the body rendered once per item with
the merged context `{...context, ...item}` (each item's `title` overriding
any outer binding), provided the item titles are non-empty and contain no
dollar sign and no brace — otherwise JS `replace`'s GetSubstitution and the
later conditional/variable passes rework the substituted text; and for every
context whose `posts` is absent or not an array the whole block is replaced
by the empty string and no error is raised. -/
theorem loop_substitution_amended (year : Int) (store : String → String)
    (ctx : Obj) (pairs : List (Obj × String))
    (hposts : getProp ctx "posts"
      = some (Value.vArr (pairs.map (fun p => p.1))))
    (h : ∀ p ∈ pairs, lastProp p.1 "title" = some (Value.vStr p.2)
      ∧ p.2 ≠ "" ∧ noBrace p.2 ∧ dollar ∉ p.2.data) :
    (renderTemplate year store 2 eachTemplate ctx).1
      = String.join (pairs.map (fun p => "<li>" ++ p.2 ++ "</li>"))
    ∧ (∀ (v : Value) (ctx' : Obj), (∀ xs, v ≠ Value.vArr xs) →
        getProp ctx' "posts" = some v →
        (renderTemplate year store 2 eachTemplate ctx').1 = "")
    ∧ (∀ ctx'' : Obj, getProp ctx'' "posts" = none →
        (renderTemplate year store 2 eachTemplate ctx'').1 = "") := by
  have hTne : ¬eachTemplate.data = [] := by decide
  have hscan : scanEach eachTemplate.data
      = [(eachTemplate.data, "posts", eachBody.data)] := rfl
  have hincNil : scanIncs eachTemplate.data = [] := rfl
  have hifNil : scanIf ([] : List Char) = [] := rfl
  have hvarNil : scanVars ([] : List Char) = [] := rfl
  refine ⟨?_, ?_, ?_⟩
  · rw [renderTemplate_fst, renderT_succ year store 1 hTne ctx,
      runIncPass_of_scan_nil store hincNil]
    have hctx1 : getProp (setProp ctx "currentYear" (Value.vNum year)) "posts"
        = some (Value.vArr (pairs.map (fun p => p.1))) := by
      rw [getProp_setProp_ne _ _ _ _ (by decide)]
      exact hposts
    have eE : runEachPass (fun b c => (renderT year store 1 b c).1)
        (setProp ctx "currentYear" (Value.vNum year)) eachTemplate.data
        = replaceFirstL eachTemplate.data eachTemplate.data
            (List.flatten ((pairs.map (fun p => p.1)).map
              (fun it => (renderT year store 1 eachBody.data
                (spread2 (setProp ctx "currentYear" (Value.vNum year))
                  it)).1))) := by
      rw [runEachPass, hscan, List.foldl_cons, List.foldl_nil]
      simp only [hctx1]
    rw [eE]
    have hmap : (pairs.map (fun p => p.1)).map
        (fun it => (renderT year store 1 eachBody.data
          (spread2 (setProp ctx "currentYear" (Value.vNum year)) it)).1)
        = pairs.map (fun p => "<li>".data ++ p.2.data ++ "</li>".data) := by
      rw [List.map_map]
      apply List.map_congr_left
      intro p hp
      obtain ⟨hl, hne, _, hnd⟩ := h p hp
      show (renderT year store 1 eachBody.data (spread2 _ p.1)).1 = _
      rw [renderT_item year store _ p.1 p.2 hl hne hnd]
    rw [hmap, replaceFirstL_self eachTemplate.data _ hTne]
    have hnd : dollar ∉ (pairs.map
        (fun p => "<li>".data ++ p.2.data ++ "</li>".data)).flatten := by
      intro hmem
      obtain ⟨piece, hpiece, hc⟩ := List.mem_flatten.mp hmem
      obtain ⟨p, hp, rfl⟩ := List.mem_map.mp hpiece
      rcases List.mem_append.mp hc with hc | hc
      · rcases List.mem_append.mp hc with hc | hc
        · exact absurd hc (by decide)
        · exact (h p hp).2.2.2 hc
      · exact absurd hc (by decide)
    rw [getSubstitution_noDollar _ _ _ hnd]
    have hnb : obr ∉ (pairs.map
        (fun p => "<li>".data ++ p.2.data ++ "</li>".data)).flatten := by
      intro hmem
      obtain ⟨piece, hpiece, hc⟩ := List.mem_flatten.mp hmem
      obtain ⟨p, hp, rfl⟩ := List.mem_map.mp hpiece
      rcases List.mem_append.mp hc with hc | hc
      · rcases List.mem_append.mp hc with hc | hc
        · exact absurd hc (by decide)
        · exact (h p hp).2.2.1 hc
      · exact absurd hc (by decide)
    rw [runIfPass_noBrace _ hnb, runVarPass_noBrace _ hnb]
    apply String.ext
    rw [string_join_data, List.map_map]
    show List.flatten _ = List.flatten _
    apply congrArg
    apply List.map_congr_left
    intro p _
    simp [Function.comp]
  · intro v ctx' hv hcv
    rw [renderTemplate_fst, renderT_succ year store 1 hTne ctx',
      runIncPass_of_scan_nil store hincNil]
    have hctx1' : getProp (setProp ctx' "currentYear" (Value.vNum year))
        "posts" = some v := by
      rw [getProp_setProp_ne _ _ _ _ (by decide)]
      exact hcv
    have eE : runEachPass (fun b c => (renderT year store 1 b c).1)
        (setProp ctx' "currentYear" (Value.vNum year)) eachTemplate.data
        = replaceFirstL eachTemplate.data eachTemplate.data [] := by
      rw [runEachPass, hscan, List.foldl_cons, List.foldl_nil]
      simp only [hctx1']
      cases v with
      | vArr xs => exact absurd rfl (hv xs)
      | vStr s => rfl
      | vNum n => rfl
      | vBool b => rfl
      | vNull => rfl
    rw [eE,
      show replaceFirstL eachTemplate.data eachTemplate.data [] = [] from rfl,
      runIfPass_of_scan_nil _ hifNil, runVarPass_of_scan_nil _ hvarNil]
  · intro ctx'' hcn
    rw [renderTemplate_fst, renderT_succ year store 1 hTne ctx'',
      runIncPass_of_scan_nil store hincNil]
    have hctx1'' : getProp (setProp ctx'' "currentYear" (Value.vNum year))
        "posts" = none := by
      rw [getProp_setProp_ne _ _ _ _ (by decide)]
      exact hcn
    have eE : runEachPass (fun b c => (renderT year store 1 b c).1)
        (setProp ctx'' "currentYear" (Value.vNum year)) eachTemplate.data
        = replaceFirstL eachTemplate.data eachTemplate.data [] := by
      rw [runEachPass, hscan, List.foldl_cons, List.foldl_nil]
      simp only [hctx1'']
    rw [eE,
      show replaceFirstL eachTemplate.data eachTemplate.data [] = [] from rfl,
      runIfPass_of_scan_nil _ hifNil, runVarPass_of_scan_nil _ hvarNil]

/-- C1 witness: two items, titled `A` and `B`, rendered through the loop
template against a context with an outer `title` binding; and a non-array
collection rendering to the empty string. -/
theorem loop_substitution_witness :
    (renderTemplate 2025 (fun _ => "") 2 eachTemplate
        [("posts", Value.vArr [[("title", Value.vStr "A")],
          [("title", Value.vStr "B"), ("x", Value.vNull)]]),
          ("title", Value.vStr "OUT")]).1
      = "<li>A</li><li>B</li>"
    ∧ (renderTemplate 2025 (fun _ => "") 2 eachTemplate
        [("posts", Value.vStr "nope")]).1 = "" := by
  have h := loop_substitution_amended 2025 (fun _ => "")
    [("posts", Value.vArr [[("title", Value.vStr "A")],
      [("title", Value.vStr "B"), ("x", Value.vNull)]]),
      ("title", Value.vStr "OUT")]
    [([("title", Value.vStr "A")], "A"),
      ([("title", Value.vStr "B"), ("x", Value.vNull)], "B")]
    rfl
    (by
      intro p hp
      simp only [List.mem_cons, List.not_mem_nil, or_false] at hp
      rcases hp with rfl | rfl
      · exact ⟨rfl, by decide, by decide, by decide⟩
      · exact ⟨rfl, by decide, by decide, by decide⟩)
  exact ⟨h.1.trans (by decide),
    h.2.1 (Value.vStr "nope") [("posts", Value.vStr "nope")]
      (fun xs hx => Value.noConfusion hx) rfl⟩

/-- C7: slug sanitization is idempotent: for every input string `x`,
`sanitizeSlug (sanitizeSlug x) = sanitizeSlug x`. -/
theorem sanitizeSlug_idempotent (x : String) :
    sanitizeSlug (sanitizeSlug x) = sanitizeSlug x := by
  unfold sanitizeSlug
  exact congrArg String.mk (sanitizeSlugL_idem x.data)

/-- C9 witness: the frame property applied to a concrete call. -/
theorem renderTemplate_frame_witness :
    getProp ((renderTemplate 2025 (fun _ => "") 1 "a" [("x", Value.vStr "b")]).2)
      "currentYear" = some (Value.vNum 2025)
    ∧ getProp ((renderTemplate 2025 (fun _ => "") 1 "a"
        [("x", Value.vStr "b")]).2) "x"
      = getProp [("x", Value.vStr "b")] "x" :=
  ⟨(renderTemplate_frame 2025 (fun _ => "") 1 "a" [("x", Value.vStr "b")]
      (by decide) (by decide)).1,
    (renderTemplate_frame 2025 (fun _ => "") 1 "a" [("x", Value.vStr "b")]
      (by decide) (by decide)).2 "x" (by decide)⟩

end Yuusha
